import Mathlib

/-!
Verification of the oculy-data temporal-alignment and interval-editing engine.

The definitions below are a shallow embedding of the TypeScript source files
(the OpenSignals chart component, its data hooks, and the keypress label
parser): times and sample values are modelled as exact rationals, JavaScript
arrays as lists, nullable values as options, and the React state cells that
hold the in-memory model as an explicit state record that each operation maps
to a new state.  String handling mirrors the source line by line; the two
external Web APIs the source calls (the JavaScript Date parser and the DOM)
are modelled as an explicit function parameter and elided, respectively.
-/

/-- One decoded sample row of the signal stream: a relative timestamp in
seconds plus the six channel readings A1..A6 of the signal file. -/
structure DataPoint where
  timestamp : ℚ
  A1 : ℚ
  A2 : ℚ
  A3 : ℚ
  A4 : ℚ
  A5 : ℚ
  A6 : ℚ
  deriving DecidableEq, Repr

/-- A labelled interval over the signal's relative timeline.  The source
field named end is reserved in Lean and is rendered here as stop. -/
structure LabelSegment where
  start : ℚ
  stop : ℚ
  label : String
  deriving DecidableEq, Repr

/-- Validation failures surfaced to the user via setError; each constructor
stands for one of the literal message strings of the source. -/
inductive UiError where
  | emptyLabel
  | segmentInvalidNumbers
  | segmentReversed
  | segmentOutOfRange
  | cropInvalidNumbers
  | cropReversed
  | cropOutOfRange
  | cropEmpty
  deriving DecidableEq, Repr

/-- The mutable in-memory model of one session: the authoritative sample
sequence rawData, the decimated display sequence data, the segment list, the
derived display range of channel A4, the two absolute-start metadata values,
the label stream's sampling rate, and the last validation error.  View-only
state (xDomain, selection, hover) is owned by the UI layer and not modelled. -/
@[ext]
structure ChartState where
  rawData : List DataPoint
  data : List DataPoint
  labelSegments : List LabelSegment
  yRange : Option (ℚ × ℚ)
  signalStartTimestampMs : Option ℚ
  keypressStartTimestampMs : Option ℚ
  keypressSamplingRate : ℚ
  error : Option UiError
  deriving DecidableEq, Repr

/-- Structural trim of whitespace from both ends of a character list.  The
string functions of the core library walk byte positions through well-founded
recursion, which the kernel cannot evaluate, so the embedding re-implements
the handful of string operations the source uses as structural recursion over
the character list of the string; string literals unfold to their character
lists in the kernel, keeping every parsing function computable by rfl and
decide. -/
def trimChars (l : List Char) : List Char :=
  ((l.dropWhile Char.isWhitespace).reverse.dropWhile Char.isWhitespace).reverse

/-- Structural implementation of trimming a string, behaviourally the
JavaScript trim on the ASCII whitespace that occurs in these files. -/
def strTrim (s : String) : String := ⟨trimChars s.data⟩

/-- Boolean test that the second list is a prefix of the first argument
list's start. -/
def charsLeads : List Char → List Char → Bool
  | [], _ => true
  | _ :: _, [] => false
  | p :: ps, c :: cs => p = c && charsLeads ps cs

/-- Structural implementation of the startsWith test. -/
def strStartsWith (s pre : String) : Bool := charsLeads pre.data s.data

/-- Structural implementation of dropping the first n characters. -/
def strDrop (s : String) (n : Nat) : String := ⟨s.data.drop n⟩

/-- Splitting on a separator character with an accumulator, mirroring the
JavaScript split on a one-character separator (adjacent separators and
boundary separators produce empty pieces). -/
def splitCharAux (sep : Char) : List Char → List Char → List String
  | [], acc => [⟨acc.reverse⟩]
  | c :: cs, acc =>
      if c = sep then (⟨acc.reverse⟩ : String) :: splitCharAux sep cs []
      else splitCharAux sep cs (c :: acc)

/-- Splits file contents into lines at newline characters. -/
def splitLines (s : String) : List String := splitCharAux '\n' s.data []

/-- Splitting on runs of whitespace with an accumulator; empty pieces are
discarded. -/
def wsSplitAux : List Char → List Char → List String
  | [], acc => if acc.isEmpty then [] else [⟨acc.reverse⟩]
  | c :: cs, acc =>
      if c.isWhitespace then
        if acc.isEmpty then wsSplitAux cs []
        else (⟨acc.reverse⟩ : String) :: wsSplitAux cs []
      else wsSplitAux cs (c :: acc)

/-- Splits a trimmed line on runs of whitespace, mirroring the JavaScript
idiom of splitting on a whitespace regex; empty pieces are discarded, which
agrees with the regex split because the split is only applied to lines with
no leading whitespace. -/
def splitWs (s : String) : List String := wsSplitAux s.data []

/-- Numeric value of a decimal digit character. -/
def digitVal (c : Char) : Nat := c.toNat - 48

/-- Natural number denoted by a list of decimal digit characters. -/
def digitsVal (l : List Char) : Nat := l.foldl (fun acc c => 10 * acc + digitVal c) 0

/-- Model of the JavaScript coercion of a whitespace-free token to a number:
none models a non-finite result (NaN), some q a finite value.  Plain decimal
literals with an optional sign and fractional part are the only token shapes
the data rows of this repository carry, so the model covers exactly an
optional sign, an integer part, and an optional fractional part, with at
least one digit overall. -/
def jsNumber (s : String) : Option ℚ :=
  let (sign, body) :=
    match s.data with
    | '-' :: rest => ((-1 : ℚ), rest)
    | '+' :: rest => ((1 : ℚ), rest)
    | l => ((1 : ℚ), l)
  let intPart := body.takeWhile (fun c => c.isDigit)
  let rest := body.dropWhile (fun c => c.isDigit)
  match rest with
  | [] =>
      if intPart.isEmpty then none
      else some (sign * (digitsVal intPart : ℚ))
  | '.' :: fracPart =>
      if fracPart.all (fun c => c.isDigit) then
        if intPart.isEmpty && fracPart.isEmpty then none
        else some (sign * ((digitsVal intPart : ℚ)
          + (digitsVal fracPart : ℚ) / (10 : ℚ) ^ fracPart.length))
      else none
  | _ => none

/-- Attempts the sampling-rate pattern (digits, optional whitespace, then the
letters h and z in either case) at the head of the character list, returning
the captured digits. -/
def matchHzAt (cs : List Char) : Option Nat :=
  let ds := cs.takeWhile (fun c => c.isDigit)
  if ds.isEmpty then none
  else
    match (cs.dropWhile (fun c => c.isDigit)).dropWhile (fun c => c.isWhitespace) with
    | h :: z :: _ =>
        if (h = 'H' ∨ h = 'h') ∧ (z = 'Z' ∨ z = 'z') then some (digitsVal ds) else none
    | _ => none

/-- Leftmost match of the sampling-rate pattern in a header line, mirroring
the regex search of the source. -/
def findHzNumber : List Char → Option Nat
  | [] => none
  | c :: rest =>
      match matchHzAt (c :: rest) with
      | some n => some n
      | none => findHzNumber rest

/-- Header loop of the keypress label parser, carried out from line index i
with the recording start and sampling rate accumulated so far; returns the
first data row index (one past the EndOfHeader sentinel, or 0 when the
sentinel is absent), the recording start timestamp, and the sampling rate.
The jsDate argument models the JavaScript Date parser applied to the date
text after its first space is replaced by a T separator (an external Web
API, not repository code); none models an unparseable date. -/
def labelHeaderScanFrom (jsDate : String → Option ℚ) :
    List String → Nat → Option ℚ → ℚ → Nat × Option ℚ × ℚ
  | [], _, rs, sr => (0, rs, sr)
  | line :: rest, i, rs, sr =>
      let rawLine := strTrim line
      if rawLine = "" then labelHeaderScanFrom jsDate rest (i + 1) rs sr
      else
        let rs1 :=
          if strStartsWith rawLine "# Recording started:" then
            match jsDate (strTrim (strDrop rawLine "# Recording started:".length)) with
            | some t => some t
            | none => rs
          else rs
        let sr1 :=
          if strStartsWith rawLine "# Sampling rate" then
            match findHzNumber rawLine.data with
            | some n => if 0 < n then (n : ℚ) else sr
            | none => sr
          else sr
        if strStartsWith rawLine "# EndOfHeader" then (i + 1, rs1, sr1)
        else labelHeaderScanFrom jsDate rest (i + 1) rs1 sr1

/-- Header loop of the keypress label parser started at the top of the file. -/
def labelHeaderScan (jsDate : String → Option ℚ) (lines : List String) :
    Nat × Option ℚ × ℚ :=
  labelHeaderScanFrom jsDate lines 0 none 1000

/-- Run-length-encoding loop over the post-header rows of the label file:
each accepted row extends the current run when its label repeats, and
otherwise pushes the finished run (with a degenerate negative width repaired
to zero width) and opens a new one.  A row is accepted when it is non-blank,
not a comment, has at least four whitespace-separated fields, and an absolute
millisecond timestamp can be determined from field 1 or, failing that, from
the recording start plus the elapsed milliseconds of field 2. -/
def rleLoop (signalStartMs : ℚ) (recordingStartMs : Option ℚ) :
    List String → Option LabelSegment → List LabelSegment
  | [], cur =>
      match cur with
      | none => []
      | some c => [if c.stop < c.start then { c with stop := c.start } else c]
  | line :: rest, cur =>
      let l := strTrim line
      if l = "" || strStartsWith l "#" then rleLoop signalStartMs recordingStartMs rest cur
      else
        let parts := splitWs l
        if parts.length < 4 then rleLoop signalStartMs recordingStartMs rest cur
        else
          let label := parts.getD 3 ""
          if label = "" then rleLoop signalStartMs recordingStartMs rest cur
          else
          let absoluteTimestampMs : Option ℚ :=
            match jsNumber (parts.getD 1 "") with
            | some t => some t
            | none =>
                match recordingStartMs, jsNumber (parts.getD 2 "") with
                | some rs, some el => some (rs + el)
                | _, _ => none
          match absoluteTimestampMs with
          | none => rleLoop signalStartMs recordingStartMs rest cur
          | some ams =>
              let relativeSeconds := (ams - signalStartMs) / 1000
              match cur with
              | none =>
                  rleLoop signalStartMs recordingStartMs rest
                    (some { start := relativeSeconds, stop := relativeSeconds, label := label })
              | some c =>
                  if c.label = label then
                    rleLoop signalStartMs recordingStartMs rest (some { c with stop := relativeSeconds })
                  else
                    (if c.stop < c.start then { c with stop := c.start } else c)
                      :: rleLoop signalStartMs recordingStartMs rest
                          (some { start := relativeSeconds, stop := relativeSeconds, label := label })

/-- The Label Segment Builder (parseKeypressLabelSegmentsWithMetadata):
parses the label file header, run-length-encodes the rows into raw segments
on the signal's relative timeline, expands zero-width runs to one sample
interval, clips to the signal's time range, and drops degenerate results.
Returns the segment list, the label stream's recording start, and its
sampling rate. -/
def parseKeypressLabelSegmentsWithMetadata (jsDate : String → Option ℚ)
    (fileContents : String) (signalStartTimestampMs : Option ℚ)
    (signalTimeRange : ℚ × ℚ) : List LabelSegment × Option ℚ × ℚ :=
  if fileContents = "" then ([], none, 1000)
  else
    match signalStartTimestampMs with
    | none => ([], none, 1000)
    | some signalStart =>
        let lines := splitLines fileContents
        let (dataStartIndex, recordingStart, samplingRate) := labelHeaderScan jsDate lines
        let sampleIntervalSec := if 0 < samplingRate then 1 / samplingRate else (1 / 1000 : ℚ)
        let rawSegments := rleLoop signalStart recordingStart (lines.drop dataStartIndex) none
        let rangeStart := signalTimeRange.1
        let rangeEnd := signalTimeRange.2
        if rangeEnd ≤ rangeStart then ([], recordingStart, samplingRate)
        else
          let segments :=
            (rawSegments.map (fun segment =>
              let minEnd := segment.start + sampleIntervalSec
              let expandedEnd := max segment.stop minEnd
              { label := segment.label
                start := max rangeStart segment.start
                stop := min rangeEnd expandedEnd : LabelSegment })).filter
              (fun s => s.start < s.stop)
          (segments, recordingStart, samplingRate)

/-- Index of the first signal data row: one past the first EndOfHeader line,
or 0 when the sentinel is absent, exactly as the header loop of processFiles
leaves dataStartIndex.  The JSON device-header branch of that loop only
extracts the sampling rate, absolute start time, and device id, which the
decoder below receives explicitly. -/
def findDataStart (lines : List String) : Nat :=
  match lines.findIdx? (fun l => strStartsWith l "# EndOfHeader") with
  | some i => i + 1
  | none => 0

/-- One iteration of the signal decode loop of processFiles: a line at the
given offset past the first data row is skipped when blank after trimming or
when it has fewer than 11 whitespace-separated fields; otherwise its
timestamp is the line offset times the sample interval and the channel
readings are fields 5 through 10, each defaulting to 0 on parse failure. -/
def decodeRow (samplingRate : ℚ) (offset : Nat) (line : String) : Option DataPoint :=
  let l := strTrim line
  if l = "" then none
  else
    let values := splitWs l
    if values.length < 11 then none
    else
      let sampleInterval := 1 / samplingRate
      some
        { timestamp := (offset : ℚ) * sampleInterval
          A1 := (jsNumber (values.getD 5 "")).getD 0
          A2 := (jsNumber (values.getD 6 "")).getD 0
          A3 := (jsNumber (values.getD 7 "")).getD 0
          A4 := (jsNumber (values.getD 8 "")).getD 0
          A5 := (jsNumber (values.getD 9 "")).getD 0
          A6 := (jsNumber (values.getD 10 "")).getD 0 }

/-- The Sample Stream Decoder: the decode loop of processFiles over the lines
at and after the first data row, with i ranging over raw line indices so that
a skipped line still advances the synthesized timestamp. -/
def decodeSignalRows (lines : List String) (dataStartIndex : Nat) (samplingRate : ℚ) :
    List DataPoint :=
  (lines.drop dataStartIndex).enum.filterMap (fun p => decodeRow samplingRate p.1 p.2)

/-- Overlap resolution of handleAddNewSegment for one existing segment
against the inserted range: kept untouched when disjoint, dropped when fully
covered, split in two when it strictly contains the inserted range, and
truncated on the overlapped side otherwise.  The final branch mirrors the
source loop falling through all four cases, which is unreachable for an
overlapping segment. -/
def resolveOverlap (startTime endTime : ℚ) (segment : LabelSegment) : List LabelSegment :=
  if segment.stop ≤ startTime ∨ segment.start ≥ endTime then [segment]
  else if startTime ≤ segment.start ∧ endTime ≥ segment.stop then []
  else if segment.start < startTime ∧ segment.stop > endTime then
    [{ segment with stop := startTime }, { segment with start := endTime }]
  else if startTime ≤ segment.start ∧ endTime < segment.stop then
    [{ segment with start := endTime }]
  else if startTime > segment.start ∧ endTime ≥ segment.stop then
    [{ segment with stop := startTime }]
  else []

/-- The insertion loop of handleAddNewSegment over the existing segments. -/
def processedSegments (startTime endTime : ℚ) : List LabelSegment → List LabelSegment
  | [] => []
  | segment :: rest =>
      resolveOverlap startTime endTime segment ++ processedSegments startTime endTime rest

/-- Stable insertion into a list sorted ascending by start: the new element
goes before the first element whose start is not smaller. -/
def insertByStart (x : LabelSegment) : List LabelSegment → List LabelSegment
  | [] => [x]
  | y :: ys => if x.start ≤ y.start then x :: y :: ys else y :: insertByStart x ys

/-- Stable sort ascending by start, modelling the JavaScript stable sort with
the comparator on start used by handleAddNewSegment. -/
def sortByStart : List LabelSegment → List LabelSegment
  | [] => []
  | a :: l => insertByStart a (sortByStart l)

/-- Insertion of an element after every element of equal start, which is
where a stable sort places an element appended at the end of the input. -/
def insertByStartLast (x : LabelSegment) : List LabelSegment → List LabelSegment
  | [] => [x]
  | y :: ys => if x.start < y.start then x :: y :: ys else y :: insertByStartLast x ys

/-- Insert (handleAddNewSegment) with its numeric inputs taken after the
parseFloat the source applies to its text fields; an unparseable text input
is rejected by the source with the same no-mutation outcome as the other
validation failures.  On success the overlap-resolved survivors plus the new
segment are re-sorted by start. -/
def handleAddNewSegment (st : ChartState) (startTime endTime : ℚ) (label : String) :
    ChartState :=
  match st.data with
  | [] => st
  | d0 :: _ =>
      let timeMin := d0.timestamp
      let timeMax := (st.data.getLastD d0).timestamp
      let trimmedLabel := strTrim label
      if trimmedLabel = "" then { st with error := some UiError.emptyLabel }
      else if startTime ≥ endTime then { st with error := some UiError.segmentReversed }
      else if startTime < timeMin ∨ endTime > timeMax then
        { st with error := some UiError.segmentOutOfRange }
      else
        let newSegment : LabelSegment :=
          { start := startTime, stop := endTime, label := trimmedLabel }
        let newSegments :=
          sortByStart (processedSegments startTime endTime st.labelSegments ++ [newSegment])
        { st with labelSegments := newSegments, error := none }

/-- Which edge of a segment a drag gesture holds. -/
inductive DragEdge where
  | start
  | stop
  deriving DecidableEq, Repr

/-- One BoundaryDrag update step (the segment updater of handleMouseMove in
useSegmentManagement), taking the proposed time already converted from pixel
coordinates.  Dragging start moves the previous segment's stop to the same
clamped value when a previous segment exists; dragging stop symmetrically
moves the next segment's start.  The out-of-range branches return the list
unchanged: the source indexes an existing segment by construction of the
dragging state. -/
def dragStep (segs : List LabelSegment) (segmentIndex : Nat) (edge : DragEdge)
    (newTime : ℚ) : List LabelSegment :=
  match segs[segmentIndex]? with
  | none => segs
  | some segment =>
      match edge with
      | DragEdge.start =>
          if segmentIndex = 0 then
            segs.set segmentIndex { segment with start := min newTime (segment.stop - 1/100) }
          else
            match segs[segmentIndex - 1]? with
            | none => segs
            | some prevSegment =>
                let constrainedTime :=
                  max (prevSegment.start + 1/100) (min newTime (segment.stop - 1/100))
                (segs.set segmentIndex { segment with start := constrainedTime }).set
                  (segmentIndex - 1) { prevSegment with stop := constrainedTime }
      | DragEdge.stop =>
          match segs[segmentIndex + 1]? with
          | none =>
              segs.set segmentIndex { segment with stop := max newTime (segment.start + 1/100) }
          | some nextSegment =>
              let constrainedTime :=
                min (nextSegment.stop - 1/100) (max newTime (segment.start + 1/100))
              (segs.set segmentIndex { segment with stop := constrainedTime }).set
                (segmentIndex + 1) { nextSegment with start := constrainedTime }

/-- Delete: the keydown handler removes the segment at the selected index by
filtering on the index, which leaves the list unchanged when the index is out
of range. -/
def deleteSegmentAt (segs : List LabelSegment) (selectedIndex : Nat) : List LabelSegment :=
  (segs.enum.filter (fun p => p.1 != selectedIndex)).map (fun p => p.2)

/-- Crop (handleApplyCrop).  The two text inputs are modelled after the
parseFloat the source applies: none stands for an empty field, which defaults
to the corresponding end of the current range; an unparseable non-empty field
is rejected by the source with the same no-mutation outcome as the other
validation failures.  On success the retained samples and the clipped
segments are shifted so the crop start becomes the new zero, the display
sequence is re-decimated, the display range of A4 is recomputed, and both
absolute starts advance by the crop offset in milliseconds. -/
def handleApplyCrop (st : ChartState) (cropStartInput cropEndInput : Option ℚ) : ChartState :=
  match st.rawData with
  | [] => st
  | r0 :: _ =>
      let timeMin := r0.timestamp
      let timeMax := (st.rawData.getLastD r0).timestamp
      let startTime := cropStartInput.getD timeMin
      let endTime := cropEndInput.getD timeMax
      if startTime ≥ endTime then { st with error := some UiError.cropReversed }
      else if startTime < timeMin ∨ endTime > timeMax then
        { st with error := some UiError.cropOutOfRange }
      else
        let trimmedRawData :=
          st.rawData.filter (fun point =>
            decide (startTime ≤ point.timestamp ∧ point.timestamp ≤ endTime))
        match trimmedRawData with
        | [] => { st with error := some UiError.cropEmpty }
        | t0 :: _ =>
            let offset := startTime
            let normalizedRawData :=
              trimmedRawData.map (fun point => { point with timestamp := point.timestamp - offset })
            let sampleStep := max 1 (normalizedRawData.length / 10000)
            let normalizedSampledData :=
              (normalizedRawData.enum.filter (fun p => p.1 % sampleStep == 0)).map
                (fun p => p.2)
            let croppedSegments :=
              (st.labelSegments.map (fun segment =>
                let clampedStart := max segment.start startTime
                let clampedEnd := min segment.stop endTime
                { segment with start := clampedStart - offset, stop := clampedEnd - offset })).filter
                (fun segment => segment.start < segment.stop)
            let minA4 := (normalizedRawData.map (fun p => p.A4)).foldl min t0.A4
            let maxA4 := (normalizedRawData.map (fun p => p.A4)).foldl max t0.A4
            let offsetMs := offset * 1000
            { st with
              rawData := normalizedRawData
              data := normalizedSampledData
              labelSegments := croppedSegments
              yRange := some (minA4, maxA4)
              signalStartTimestampMs := st.signalStartTimestampMs.map (fun prev => prev + offsetMs)
              keypressStartTimestampMs :=
                st.keypressStartTimestampMs.map (fun prev => prev + offsetMs)
              error := none }

/-- One synthesized row of the label export: the running sample number, the
absolute millisecond timestamp, the elapsed milliseconds relative to the
label stream's recording start, and the label. -/
structure ExportRow where
  sampleNumber : Nat
  timestampMs : ℚ
  elapsedMs : ℚ
  label : String
  deriving DecidableEq, Repr

/-- The segments handleExportLabels writes: the current segments clamped to
the authoritative sample range, with degenerate results dropped. -/
def segmentsForExportOf (st : ChartState) : List LabelSegment :=
  match st.rawData with
  | [] => []
  | r0 :: _ =>
      let dataStart := r0.timestamp
      let dataEnd := (st.rawData.getLastD r0).timestamp
      (st.labelSegments.map (fun segment =>
        { label := segment.label
          start := max segment.start dataStart
          stop := min segment.stop dataEnd : LabelSegment })).filter
        (fun segment => segment.start < segment.stop)

/-- The rows the export loop synthesizes for one segment, with the running
sample number starting at startNum. -/
def rowsForSegment (signalStartMs keypressStartMs sampleIntervalMs : ℚ) (startNum : Nat)
    (segment : LabelSegment) : List ExportRow :=
  let segmentStartMs := signalStartMs + segment.start * 1000
  let segmentEndMs := signalStartMs + segment.stop * 1000
  let segmentDurationMs := segmentEndMs - segmentStartMs
  let numSamples := (max 1 ⌈segmentDurationMs / sampleIntervalMs⌉).toNat
  (List.range numSamples).map (fun (i : Nat) =>
    let timestampMs := segmentStartMs + (i : ℚ) * sampleIntervalMs
    { sampleNumber := startNum + i
      timestampMs := timestampMs
      elapsedMs := timestampMs - keypressStartMs
      label := segment.label })

/-- The per-segment export loop of handleExportLabels, threading the running
sample number. -/
def exportLoop (signalStartMs keypressStartMs sampleIntervalMs : ℚ) :
    List LabelSegment → Nat → List ExportRow
  | [], _ => []
  | segment :: rest, n =>
      let block := rowsForSegment signalStartMs keypressStartMs sampleIntervalMs n segment
      block ++ exportLoop signalStartMs keypressStartMs sampleIntervalMs rest (n + block.length)

/-- Label export (handleExportLabels): none models the rejection paths (no
signal data, no segments, missing absolute-time metadata for either stream,
or nothing left after clipping to the sample range); some gives the
synthesized rows. -/
def handleExportLabels (st : ChartState) : Option (List ExportRow) :=
  if st.rawData = [] then none
  else if st.labelSegments = [] then none
  else
    match st.signalStartTimestampMs, st.keypressStartTimestampMs with
    | some signalStart, some keypressStart =>
        let segmentsForExport := segmentsForExportOf st
        if segmentsForExport = [] then none
        else
          let sampleIntervalMs := 1000 / st.keypressSamplingRate
          some (exportLoop signalStart keypressStart sampleIntervalMs segmentsForExport 0)
    | _, _ => none

/-- Modelled from the spec (claim C9): the exported rows described by the
spec's own formulas, for comparison with the embedded export loop.  Each
segment yields max 1 (ceil of duration over interval) rows; row i is
timestamped at the segment's absolute start (anchored on the signal stream's
absolute start) plus i sample intervals, with elapsed time relative to the
label stream's absolute start. -/
def exportRowsSpec (signalStartMs keypressStartMs sampleIntervalMs : ℚ)
    (segments : List LabelSegment) : List (ℚ × ℚ × String) :=
  match segments with
  | [] => []
  | segment :: rest =>
      let durationMs := (segment.stop - segment.start) * 1000
      let segmentStartAbsoluteMs := signalStartMs + segment.start * 1000
      (List.range (max 1 ⌈durationMs / sampleIntervalMs⌉).toNat).map (fun (i : Nat) =>
        let ts := segmentStartAbsoluteMs + (i : ℚ) * sampleIntervalMs
        (ts, ts - keypressStartMs, segment.label))
        ++ exportRowsSpec signalStartMs keypressStartMs sampleIntervalMs rest

/-- The segment-list invariant of the spec: sorted ascending by start, and
every segment strictly wider than zero. -/
def SegInv (segs : List LabelSegment) : Prop :=
  List.Pairwise (fun a b => a.start ≤ b.start) segs ∧ ∀ s ∈ segs, s.start < s.stop

instance (segs : List LabelSegment) : Decidable (SegInv segs) := by
  unfold SegInv; infer_instance

/-- An editing command against the current state: Insert and Crop carry their
user inputs (validation included in the operation), Delete carries the
selected index. -/
inductive EditOp where
  | insert (startTime endTime : ℚ) (label : String)
  | delete (idx : Nat)
  | crop (cropStartInput cropEndInput : Option ℚ)

/-- Applies one editing command to the state. -/
def applyOp (st : ChartState) : EditOp → ChartState
  | EditOp.insert s e l => handleAddNewSegment st s e l
  | EditOp.delete i => { st with labelSegments := deleteSegmentAt st.labelSegments i }
  | EditOp.crop a b => handleApplyCrop st a b

/-- Comparison on segment starts, the sort key of handleAddNewSegment. -/
def leStart (a b : LabelSegment) : Prop := a.start ≤ b.start

/-- A segment is disjoint from the half-open inserted range: it ends at or
before the range starts, or starts at or after the range ends. -/
def noOverlapWith (startTime endTime : ℚ) (segment : LabelSegment) : Prop :=
  segment.stop ≤ startTime ∨ endTime ≤ segment.start

instance (startTime endTime : ℚ) (segment : LabelSegment) :
    Decidable (noOverlapWith startTime endTime segment) := by
  unfold noOverlapWith; infer_instance

/-- A signal data line the decode loop accepts: non-blank after trimming and
with at least 11 whitespace-separated fields. -/
def rowAccepted (line : String) : Prop :=
  strTrim line ≠ "" ∧ 11 ≤ (splitWs (strTrim line)).length

instance (line : String) : Decidable (rowAccepted line) := by
  unfold rowAccepted; infer_instance

/-- Projection of an export row to the values the spec's formulas describe:
absolute timestamp, elapsed milliseconds, and label. -/
def exportProj (r : ExportRow) : ℚ × ℚ × String := (r.timestampMs, r.elapsedMs, r.label)

/-- A sample at time t with all channel readings zero, for concrete instances. -/
def ptAt (t : ℚ) : DataPoint := ⟨t, 0, 0, 0, 0, 0, 0⟩

/-- A small concrete session state: three samples at 0, 1, 2 seconds and one
segment, used to instantiate theorems with hypotheses. -/
def stA : ChartState :=
  ⟨[ptAt 0, ptAt 1, ptAt 2], [ptAt 0, ptAt 1, ptAt 2], [⟨0, 7/5, "Z"⟩], none,
    some 1000, some 500, 1000, none⟩

/-- A concrete session state whose label export succeeds with two rows. -/
def stB : ChartState :=
  ⟨[ptAt 0, ptAt (2/1000)], [ptAt 0, ptAt (2/1000)], [⟨0, 2/1000, "up"⟩], none,
    some 1000, some 500, 1000, none⟩

/-- The signal file of the spec's concrete scenario A: a header terminated by
the sentinel followed by three data rows, decoded at 1000 Hz. -/
def sigLinesA : List String :=
  ["# EndOfHeader", "0 0 0 0 0 1 2 3 4 5 6", "0 0 0 0 0 1 2 3 4 5 6", "0 0 0 0 0 1 2 3 4 5 6"]

/-- The label file of the spec's concrete scenario A: rows at absolute
milliseconds T, T+1, T+2 (T = 1000000) labelled up, up, down. -/
def labelFileA : String :=
  "# Sampling rate: 1000 Hz\n# EndOfHeader\n0\t1000000\t0\tup\n1\t1000001\t1\tup\n2\t1000002\t2\tdown"

theorem mem_insertByStart (z x : LabelSegment) (l : List LabelSegment) :
    z ∈ insertByStart x l ↔ z = x ∨ z ∈ l := by
  induction l with
  | nil => simp [insertByStart]
  | cons y ys ih =>
      unfold insertByStart
      split_ifs with h
      · simp [List.mem_cons]
      · simp [List.mem_cons, ih]
        tauto

theorem mem_sortByStart (z : LabelSegment) (l : List LabelSegment) :
    z ∈ sortByStart l ↔ z ∈ l := by
  induction l with
  | nil => simp [sortByStart]
  | cons a l ih => simp [sortByStart, mem_insertByStart, ih]

theorem pairwise_insertByStart (x : LabelSegment) (l : List LabelSegment)
    (h : List.Pairwise leStart l) : List.Pairwise leStart (insertByStart x l) := by
  induction l with
  | nil => simp [insertByStart, leStart]
  | cons y ys ih =>
      unfold insertByStart
      rcases List.pairwise_cons.mp h with ⟨hy, hys⟩
      split_ifs with hle
      · refine List.pairwise_cons.mpr ⟨?_, h⟩
        intro b hb
        rcases List.mem_cons.mp hb with rfl | hb
        · exact hle
        · exact le_trans hle (hy b hb)
      · refine List.pairwise_cons.mpr ⟨?_, ih hys⟩
        intro b hb
        rcases (mem_insertByStart b x ys).mp hb with rfl | hb
        · exact le_of_not_le hle
        · exact hy b hb

theorem pairwise_sortByStart (l : List LabelSegment) :
    List.Pairwise leStart (sortByStart l) := by
  induction l with
  | nil => simp [sortByStart]
  | cons a l ih => exact pairwise_insertByStart a (sortByStart l) ih

theorem sortByStart_of_pairwise (l : List LabelSegment)
    (h : List.Pairwise leStart l) : sortByStart l = l := by
  induction l with
  | nil => rfl
  | cons a l ih =>
      rcases List.pairwise_cons.mp h with ⟨ha, hl⟩
      rw [sortByStart, ih hl]
      cases l with
      | nil => rfl
      | cons b bs =>
          have hab : a.start ≤ b.start := ha b (List.mem_cons_self b bs)
          rw [insertByStart, if_pos hab]

theorem insertByStart_insertByStartLast_comm (a x : LabelSegment) (m : List LabelSegment) :
    insertByStart a (insertByStartLast x m) = insertByStartLast x (insertByStart a m) := by
  induction m with
  | nil =>
      by_cases h : a.start ≤ x.start
      · simp [insertByStart, insertByStartLast, h, not_lt.mpr h]
      · simp [insertByStart, insertByStartLast, h, lt_of_not_le h]
  | cons y ys ih =>
      by_cases hxy : x.start < y.start
      · by_cases hay : a.start ≤ y.start
        · by_cases hax : a.start ≤ x.start
          · simp [insertByStartLast, insertByStart, hxy, hay, hax, not_lt.mpr hax]
          · simp [insertByStartLast, insertByStart, hxy, hay, hax, lt_of_not_le hax]
        · have hax : ¬ a.start ≤ x.start := fun h => hay (le_trans h (le_of_lt hxy))
          simp [insertByStartLast, insertByStart, hxy, hay, hax]
      · by_cases hay : a.start ≤ y.start
        · have hxa : ¬ x.start < a.start := not_lt.mpr (le_trans hay (not_lt.mp hxy))
          simp [insertByStartLast, insertByStart, hxy, hay, hxa]
        · simp [insertByStartLast, insertByStart, hxy, hay, ih]

theorem sortByStart_append_singleton (x : LabelSegment) (l : List LabelSegment) :
    sortByStart (l ++ [x]) = insertByStartLast x (sortByStart l) := by
  induction l with
  | nil => rfl
  | cons a l ih =>
      rw [List.cons_append, sortByStart, ih, insertByStart_insertByStartLast_comm]
      rfl

theorem insertByStartLast_decomp (x : LabelSegment) (m : List LabelSegment) :
    ∃ A B, m = A ++ B ∧ insertByStartLast x m = A ++ x :: B := by
  induction m with
  | nil => exact ⟨[], [], rfl, rfl⟩
  | cons y ys ih =>
      by_cases h : x.start < y.start
      · exact ⟨[], y :: ys, rfl, by simp [insertByStartLast, h]⟩
      · rcases ih with ⟨A, B, hAB, hins⟩
        exact ⟨y :: A, B, by simp [hAB], by simp [insertByStartLast, h, hins]⟩

theorem resolveOverlap_pred (startTime endTime : ℚ) (segment q : LabelSegment)
    (hq : q ∈ resolveOverlap startTime endTime segment) :
    noOverlapWith startTime endTime q := by
  unfold resolveOverlap at hq
  unfold noOverlapWith
  split_ifs at hq with h1 h2 h3 h4 h5
  · rcases List.mem_singleton.mp hq with rfl
    rcases h1 with h | h
    · exact Or.inl h
    · exact Or.inr h
  · simp at hq
  · rcases List.mem_cons.mp hq with rfl | hq
    · exact Or.inl le_rfl
    · rcases List.mem_singleton.mp hq with rfl
      exact Or.inr le_rfl
  · rcases List.mem_singleton.mp hq with rfl
    exact Or.inr le_rfl
  · rcases List.mem_singleton.mp hq with rfl
    exact Or.inl le_rfl
  · simp at hq

theorem resolveOverlap_of_pred (startTime endTime : ℚ) (segment : LabelSegment)
    (h : noOverlapWith startTime endTime segment) :
    resolveOverlap startTime endTime segment = [segment] := by
  unfold resolveOverlap
  have hcond : segment.stop ≤ startTime ∨ segment.start ≥ endTime := h
  rw [if_pos hcond]

theorem resolveOverlap_self (startTime endTime : ℚ) (lab : String)
    (h : startTime < endTime) :
    resolveOverlap startTime endTime ⟨startTime, endTime, lab⟩ = [] := by
  unfold resolveOverlap
  rw [if_neg, if_pos]
  · exact ⟨le_rfl, le_rfl⟩
  · push_neg
    exact ⟨h, h⟩

theorem resolveOverlap_width (startTime endTime : ℚ) (segment q : LabelSegment)
    (hse : startTime < endTime) (hw : segment.start < segment.stop)
    (hq : q ∈ resolveOverlap startTime endTime segment) : q.start < q.stop := by
  unfold resolveOverlap at hq
  split_ifs at hq with h1 h2 h3 h4 h5
  · rcases List.mem_singleton.mp hq with rfl
    exact hw
  · simp at hq
  · rcases List.mem_cons.mp hq with rfl | hq
    · exact h3.1
    · rcases List.mem_singleton.mp hq with rfl
      exact h3.2
  · rcases List.mem_singleton.mp hq with rfl
    exact h4.2
  · rcases List.mem_singleton.mp hq with rfl
    exact h5.1
  · simp at hq

theorem processedSegments_append (startTime endTime : ℚ) (A B : List LabelSegment) :
    processedSegments startTime endTime (A ++ B) =
      processedSegments startTime endTime A ++ processedSegments startTime endTime B := by
  induction A with
  | nil => rfl
  | cons a A ih => simp [processedSegments, ih]

theorem processedSegments_pred (startTime endTime : ℚ) (L : List LabelSegment)
    (q : LabelSegment) (hq : q ∈ processedSegments startTime endTime L) :
    noOverlapWith startTime endTime q := by
  induction L with
  | nil => simp [processedSegments] at hq
  | cons a L ih =>
      rcases List.mem_append.mp hq with hq | hq
      · exact resolveOverlap_pred startTime endTime a q hq
      · exact ih hq

theorem processedSegments_of_pred (startTime endTime : ℚ) (L : List LabelSegment)
    (h : ∀ q ∈ L, noOverlapWith startTime endTime q) :
    processedSegments startTime endTime L = L := by
  induction L with
  | nil => rfl
  | cons a L ih =>
      rw [processedSegments, resolveOverlap_of_pred startTime endTime a
        (h a (List.mem_cons_self a L)), ih (fun q hq => h q (List.mem_cons_of_mem a hq))]
      rfl

theorem processedSegments_width (startTime endTime : ℚ) (L : List LabelSegment)
    (hse : startTime < endTime) (hw : ∀ s ∈ L, s.start < s.stop) :
    ∀ q ∈ processedSegments startTime endTime L, q.start < q.stop := by
  induction L with
  | nil => simp [processedSegments]
  | cons a L ih =>
      intro q hq
      rcases List.mem_append.mp hq with hq | hq
      · exact resolveOverlap_width startTime endTime a q hse
          (hw a (List.mem_cons_self a L)) hq
      · exact ih (fun s hs => hw s (List.mem_cons_of_mem a hs)) q hq

theorem mem_processedSegments (startTime endTime : ℚ) (L : List LabelSegment)
    (q : LabelSegment) (hq : q ∈ processedSegments startTime endTime L) :
    ∃ segment ∈ L, q ∈ resolveOverlap startTime endTime segment := by
  induction L with
  | nil => simp [processedSegments] at hq
  | cons a L ih =>
      rcases List.mem_append.mp hq with hq | hq
      · exact ⟨a, List.mem_cons_self a L, hq⟩
      · rcases ih hq with ⟨s, hs, hmem⟩
        exact ⟨s, List.mem_cons_of_mem a hs, hmem⟩

theorem sortByStart_processed_fixpoint (startTime endTime : ℚ) (lab : String)
    (L : List LabelSegment) (hse : startTime < endTime) :
    sortByStart (processedSegments startTime endTime
        (sortByStart (processedSegments startTime endTime L ++ [⟨startTime, endTime, lab⟩]))
      ++ [⟨startTime, endTime, lab⟩]) =
    sortByStart (processedSegments startTime endTime L ++ [⟨startTime, endTime, lab⟩]) := by
  have hL1 := sortByStart_append_singleton (⟨startTime, endTime, lab⟩ : LabelSegment)
      (processedSegments startTime endTime L)
  rcases insertByStartLast_decomp (⟨startTime, endTime, lab⟩ : LabelSegment)
      (sortByStart (processedSegments startTime endTime L)) with ⟨A, B, hAB, hdec⟩
  have hpredA : ∀ q ∈ A, noOverlapWith startTime endTime q := by
    intro q hq
    have hqM : q ∈ sortByStart (processedSegments startTime endTime L) := by
      rw [hAB]
      exact List.mem_append_left B hq
    exact processedSegments_pred startTime endTime L q ((mem_sortByStart q _).mp hqM)
  have hpredB : ∀ q ∈ B, noOverlapWith startTime endTime q := by
    intro q hq
    have hqM : q ∈ sortByStart (processedSegments startTime endTime L) := by
      rw [hAB]
      exact List.mem_append_right A hq
    exact processedSegments_pred startTime endTime L q ((mem_sortByStart q _).mp hqM)
  have hproc : processedSegments startTime endTime
      (sortByStart (processedSegments startTime endTime L ++ [⟨startTime, endTime, lab⟩])) =
      sortByStart (processedSegments startTime endTime L) := by
    rw [hL1, hdec, processedSegments_append]
    have hcons : processedSegments startTime endTime (⟨startTime, endTime, lab⟩ :: B) =
        resolveOverlap startTime endTime ⟨startTime, endTime, lab⟩
          ++ processedSegments startTime endTime B := rfl
    rw [hcons, resolveOverlap_self startTime endTime lab hse,
        processedSegments_of_pred startTime endTime A hpredA,
        processedSegments_of_pred startTime endTime B hpredB, List.nil_append, ← hAB]
  rw [hproc, sortByStart_append_singleton,
      sortByStart_of_pairwise _ (pairwise_sortByStart (processedSegments startTime endTime L))]
  exact hL1.symm

theorem handleAddNewSegment_cons (st : ChartState) (startTime endTime : ℚ) (lab : String)
    (d0 : DataPoint) (tl : List DataPoint) (hdata : st.data = d0 :: tl) :
    handleAddNewSegment st startTime endTime lab =
      (if strTrim lab = "" then { st with error := some UiError.emptyLabel }
       else if startTime ≥ endTime then { st with error := some UiError.segmentReversed }
       else if startTime < d0.timestamp ∨ endTime > ((d0 :: tl).getLastD d0).timestamp then
         { st with error := some UiError.segmentOutOfRange }
       else
         { st with
           labelSegments := sortByStart
             (processedSegments startTime endTime st.labelSegments
               ++ [⟨startTime, endTime, strTrim lab⟩])
           error := none }) := by
  unfold handleAddNewSegment
  rw [hdata]

/-- Claim C7: for a segment accepted by the validation of Insert (non-empty
trimmed label, start before end, both within the data range), inserting it
twice in succession yields the same state, segment list included, as
inserting it once. -/
theorem insert_idempotent (st : ChartState) (startTime endTime : ℚ) (lab : String)
    (d0 : DataPoint) (tl : List DataPoint) (hdata : st.data = d0 :: tl)
    (hlab : strTrim lab ≠ "")
    (hse : startTime < endTime)
    (hmin : ¬ startTime < d0.timestamp)
    (hmax : ¬ endTime > ((d0 :: tl).getLastD d0).timestamp) :
    handleAddNewSegment (handleAddNewSegment st startTime endTime lab) startTime endTime lab =
      handleAddNewSegment st startTime endTime lab := by
  have h1 := handleAddNewSegment_cons st startTime endTime lab d0 tl hdata
  rw [if_neg hlab, if_neg (not_le.mpr hse), if_neg (not_or.mpr ⟨hmin, hmax⟩)] at h1
  have hdata1 : (handleAddNewSegment st startTime endTime lab).data = d0 :: tl := by
    rw [h1]
    exact hdata
  have h2 := handleAddNewSegment_cons (handleAddNewSegment st startTime endTime lab)
      startTime endTime lab d0 tl hdata1
  rw [if_neg hlab, if_neg (not_le.mpr hse), if_neg (not_or.mpr ⟨hmin, hmax⟩)] at h2
  rw [h2, h1]
  refine ChartState.ext rfl rfl ?_ rfl rfl rfl rfl rfl
  exact sortByStart_processed_fixpoint startTime endTime (strTrim lab) st.labelSegments hse

/-- Witness for claim C7 at a concrete accepted insertion. -/
theorem insert_idempotent_witness :
    stA.data = ptAt 0 :: [ptAt 1, ptAt 2] ∧ strTrim "X" ≠ "" ∧ (1 : ℚ) < 2 ∧
      ¬ (1 : ℚ) < (ptAt 0).timestamp ∧
      ¬ (2 : ℚ) > ((ptAt 0 :: [ptAt 1, ptAt 2]).getLastD (ptAt 0)).timestamp ∧
      handleAddNewSegment (handleAddNewSegment stA 1 2 "X") 1 2 "X" =
        handleAddNewSegment stA 1 2 "X" :=
  ⟨rfl, by decide, by decide, by decide, by decide,
    insert_idempotent stA 1 2 "X" (ptAt 0) [ptAt 1, ptAt 2] rfl (by decide) (by decide)
      (by decide) (by decide)⟩

/-- Claim C8: Crop or Insert invoked with equal or reversed bounds is
rejected: a validation error is reported and the model state (authoritative
samples, display samples, segment list, hence also the derived time range,
and both absolute-start metadata values) is unchanged. -/
theorem invalid_bounds_rejected (st : ChartState) (a b : ℚ) (lab : String)
    (r0 : DataPoint) (rtl : List DataPoint) (hraw : st.rawData = r0 :: rtl)
    (d0 : DataPoint) (dtl : List DataPoint) (hdata : st.data = d0 :: dtl)
    (hab : b ≤ a) :
    ((handleApplyCrop st (some a) (some b)).rawData = st.rawData ∧
     (handleApplyCrop st (some a) (some b)).data = st.data ∧
     (handleApplyCrop st (some a) (some b)).labelSegments = st.labelSegments ∧
     (handleApplyCrop st (some a) (some b)).signalStartTimestampMs = st.signalStartTimestampMs ∧
     (handleApplyCrop st (some a) (some b)).keypressStartTimestampMs =
       st.keypressStartTimestampMs ∧
     (handleApplyCrop st (some a) (some b)).error = some UiError.cropReversed) ∧
    ((handleAddNewSegment st a b lab).rawData = st.rawData ∧
     (handleAddNewSegment st a b lab).data = st.data ∧
     (handleAddNewSegment st a b lab).labelSegments = st.labelSegments ∧
     (handleAddNewSegment st a b lab).signalStartTimestampMs = st.signalStartTimestampMs ∧
     (handleAddNewSegment st a b lab).keypressStartTimestampMs =
       st.keypressStartTimestampMs ∧
     (handleAddNewSegment st a b lab).error.isSome) := by
  obtain ⟨raw, dat, segs, yr, sS, kS, rate, err⟩ := st
  simp only at hraw hdata
  subst hraw
  subst hdata
  constructor
  · have hcrop : handleApplyCrop
        ⟨r0 :: rtl, d0 :: dtl, segs, yr, sS, kS, rate, err⟩ (some a) (some b) =
        { rawData := r0 :: rtl, data := d0 :: dtl, labelSegments := segs, yRange := yr
          signalStartTimestampMs := sS, keypressStartTimestampMs := kS
          keypressSamplingRate := rate, error := some UiError.cropReversed } := by
      simp only [handleApplyCrop, Option.getD_some, ge_iff_le, hab, if_true]
    rw [hcrop]
    simp
  · have hins : ∃ e, handleAddNewSegment
        ⟨r0 :: rtl, d0 :: dtl, segs, yr, sS, kS, rate, err⟩ a b lab =
        { rawData := r0 :: rtl, data := d0 :: dtl, labelSegments := segs, yRange := yr
          signalStartTimestampMs := sS, keypressStartTimestampMs := kS
          keypressSamplingRate := rate, error := some e } := by
      by_cases hlab : strTrim lab = ""
      · exact ⟨UiError.emptyLabel, by simp only [handleAddNewSegment, hlab, if_true]⟩
      · refine ⟨UiError.segmentReversed, ?_⟩
        simp only [handleAddNewSegment, hlab, if_false, ge_iff_le, hab, if_true]
    rcases hins with ⟨e, he⟩
    rw [he]
    simp

/-- Witness for claim C8 at a concrete state with reversed bounds. -/
theorem invalid_bounds_rejected_witness :
    stA.rawData = ptAt 0 :: [ptAt 1, ptAt 2] ∧ stA.data = ptAt 0 :: [ptAt 1, ptAt 2] ∧
      (1 : ℚ) ≤ 2 ∧
      (handleApplyCrop stA (some 2) (some 1)).labelSegments = stA.labelSegments ∧
      (handleApplyCrop stA (some 2) (some 1)).error = some UiError.cropReversed ∧
      (handleAddNewSegment stA 2 1 "X").labelSegments = stA.labelSegments ∧
      (handleAddNewSegment stA 2 1 "X").error.isSome :=
  ⟨rfl, rfl, by decide,
    ((invalid_bounds_rejected stA 2 1 "X" (ptAt 0) [ptAt 1, ptAt 2] rfl (ptAt 0)
      [ptAt 1, ptAt 2] rfl (by decide)).1).2.2.1,
    ((invalid_bounds_rejected stA 2 1 "X" (ptAt 0) [ptAt 1, ptAt 2] rfl (ptAt 0)
      [ptAt 1, ptAt 2] rfl (by decide)).1).2.2.2.2.2,
    ((invalid_bounds_rejected stA 2 1 "X" (ptAt 0) [ptAt 1, ptAt 2] rfl (ptAt 0)
      [ptAt 1, ptAt 2] rfl (by decide)).2).2.2.1,
    ((invalid_bounds_rejected stA 2 1 "X" (ptAt 0) [ptAt 1, ptAt 2] rfl (ptAt 0)
      [ptAt 1, ptAt 2] rfl (by decide)).2).2.2.2.2.2⟩

theorem mem_processedSegments_of_pred (startTime endTime : ℚ) (L : List LabelSegment)
    (segment : LabelSegment) (hseg : segment ∈ L)
    (hpred : noOverlapWith startTime endTime segment) :
    segment ∈ processedSegments startTime endTime L := by
  induction L with
  | nil => simp at hseg
  | cons a L ih =>
      rcases List.mem_cons.mp hseg with rfl | hseg
      · rw [processedSegments, resolveOverlap_of_pred startTime endTime segment hpred]
        exact List.mem_append_left _ (List.mem_singleton_self segment)
      · exact List.mem_append_right _ (ih hseg)

/-- Claim C10: for an accepted Insert, every existing segment disjoint from
the half-open inserted range reappears in the result unchanged, and every
element of the result is the new segment, such an untouched disjoint
segment, or a truncated or split piece produced from an overlapping
segment by overlap resolution. -/
theorem insert_frame (st : ChartState) (startTime endTime : ℚ) (lab : String)
    (d0 : DataPoint) (tl : List DataPoint) (hdata : st.data = d0 :: tl)
    (hlab : strTrim lab ≠ "")
    (hse : startTime < endTime)
    (hmin : ¬ startTime < d0.timestamp)
    (hmax : ¬ endTime > ((d0 :: tl).getLastD d0).timestamp) :
    (∀ segment ∈ st.labelSegments, noOverlapWith startTime endTime segment →
      segment ∈ (handleAddNewSegment st startTime endTime lab).labelSegments) ∧
    (∀ q ∈ (handleAddNewSegment st startTime endTime lab).labelSegments,
      q = ⟨startTime, endTime, strTrim lab⟩ ∨
      (q ∈ st.labelSegments ∧ noOverlapWith startTime endTime q) ∨
      ∃ segment ∈ st.labelSegments, ¬ noOverlapWith startTime endTime segment ∧
        q ∈ resolveOverlap startTime endTime segment) := by
  have h1 := handleAddNewSegment_cons st startTime endTime lab d0 tl hdata
  rw [if_neg hlab, if_neg (not_le.mpr hse), if_neg (not_or.mpr ⟨hmin, hmax⟩)] at h1
  have hfield : (handleAddNewSegment st startTime endTime lab).labelSegments =
      sortByStart (processedSegments startTime endTime st.labelSegments
        ++ [⟨startTime, endTime, strTrim lab⟩]) := by
    rw [h1]
  constructor
  · intro segment hseg hpred
    rw [hfield, mem_sortByStart]
    exact List.mem_append_left _
      (mem_processedSegments_of_pred startTime endTime st.labelSegments segment hseg hpred)
  · intro q hq
    rw [hfield, mem_sortByStart] at hq
    rcases List.mem_append.mp hq with hq | hq
    · rcases mem_processedSegments startTime endTime st.labelSegments q hq with
        ⟨segment, hsegL, hqres⟩
      by_cases hpred : noOverlapWith startTime endTime segment
      · rw [resolveOverlap_of_pred startTime endTime segment hpred] at hqres
        rcases List.mem_singleton.mp hqres with rfl
        exact Or.inr (Or.inl ⟨hsegL, hpred⟩)
      · exact Or.inr (Or.inr ⟨segment, hsegL, hpred, hqres⟩)
    · rcases List.mem_singleton.mp hq with rfl
      exact Or.inl rfl

set_option maxRecDepth 100000 in
/-- Witness for claim C10: inserting over the tail of the range leaves the
disjoint existing segment in the list. -/
theorem insert_frame_witness :
    stA.data = ptAt 0 :: [ptAt 1, ptAt 2] ∧ strTrim "X" ≠ "" ∧ (3/2 : ℚ) < 2 ∧
      ¬ (3/2 : ℚ) < (ptAt 0).timestamp ∧
      ¬ (2 : ℚ) > ((ptAt 0 :: [ptAt 1, ptAt 2]).getLastD (ptAt 0)).timestamp ∧
      (⟨0, 7/5, "Z"⟩ : LabelSegment) ∈ stA.labelSegments ∧
      noOverlapWith (3/2) 2 ⟨0, 7/5, "Z"⟩ ∧
      (⟨0, 7/5, "Z"⟩ : LabelSegment) ∈
        (handleAddNewSegment stA (3/2) 2 "X").labelSegments :=
  ⟨rfl, by decide, by with_unfolding_all decide, by with_unfolding_all decide,
    by with_unfolding_all decide, by with_unfolding_all decide, by with_unfolding_all decide,
    (insert_frame stA (3/2) 2 "X" (ptAt 0) [ptAt 1, ptAt 2] rfl (by decide)
        (by with_unfolding_all decide) (by with_unfolding_all decide)
        (by with_unfolding_all decide)).1 ⟨0, 7/5, "Z"⟩ (by with_unfolding_all decide)
        (by with_unfolding_all decide)⟩

/-- Claim C4: a single BoundaryDrag step keeps the dragged boundary exactly
shared.  Dragging the stop edge of segment i with a successor makes the
result satisfy segments[i].stop = segments[i+1].start, and dragging the
start edge of segment i with a predecessor makes segments[i-1].stop =
segments[i].start; no gap or overlap is produced at the dragged boundary. -/
theorem drag_keeps_boundary_shared (segs : List LabelSegment) (i : Nat) (newTime : ℚ)
    (hi : i < segs.length) :
    (i + 1 < segs.length →
      ((dragStep segs i DragEdge.stop newTime)[i]?).map (fun s => s.stop) =
        ((dragStep segs i DragEdge.stop newTime)[i + 1]?).map (fun s => s.start)) ∧
    (0 < i →
      ((dragStep segs i DragEdge.start newTime)[i - 1]?).map (fun s => s.stop) =
        ((dragStep segs i DragEdge.start newTime)[i]?).map (fun s => s.start)) := by
  constructor
  · intro hnext
    unfold dragStep
    rw [List.getElem?_eq_getElem hi, List.getElem?_eq_getElem hnext]
    rw [List.getElem?_set_ne (by omega), List.getElem?_set_self (by simpa using hi),
        List.getElem?_set_self (by simpa using hnext)]
    simp
  · intro hpos
    unfold dragStep
    have hprev : i - 1 < segs.length := by omega
    have hi0 : ¬ i = 0 := by omega
    rw [List.getElem?_eq_getElem hi, List.getElem?_eq_getElem hprev]
    simp only [hi0, if_false]
    rw [List.getElem?_set_self (by simpa using hprev),
        List.getElem?_set_ne (by omega), List.getElem?_set_self (by simpa using hi)]
    simp

/-- Witness for claim C4 at a concrete drag of the stop edge of segment 0 and
of the start edge of segment 1. -/
theorem drag_keeps_boundary_shared_witness :
    (0 : Nat) < 2 ∧ (1 : Nat) < 2 ∧
      ((dragStep [⟨0, 1, "a"⟩, ⟨1, 2, "b"⟩] 0 DragEdge.stop (3/2))[0]?).map
          (fun s => s.stop) =
        ((dragStep [⟨0, 1, "a"⟩, ⟨1, 2, "b"⟩] 0 DragEdge.stop (3/2))[1]?).map
          (fun s => s.start) ∧
      ((dragStep [⟨0, 1, "a"⟩, ⟨1, 2, "b"⟩] 1 DragEdge.start (1/2))[0]?).map
          (fun s => s.stop) =
        ((dragStep [⟨0, 1, "a"⟩, ⟨1, 2, "b"⟩] 1 DragEdge.start (1/2))[1]?).map
          (fun s => s.start) :=
  ⟨by decide, by decide,
    (drag_keeps_boundary_shared [⟨0, 1, "a"⟩, ⟨1, 2, "b"⟩] 0 (3/2) (by decide)).1
      (by decide),
    (drag_keeps_boundary_shared [⟨0, 1, "a"⟩, ⟨1, 2, "b"⟩] 1 (1/2) (by decide)).2
      (by decide)⟩

theorem chain'_rel_of_getElem? {R : LabelSegment → LabelSegment → Prop}
    {l : List LabelSegment} (h : List.Chain' R l) (j : Nat) (a b : LabelSegment)
    (ha : l[j]? = some a) (hb : l[j + 1]? = some b) : R a b := by
  rcases List.getElem?_eq_some.mp ha with ⟨hja, hea⟩
  rcases List.getElem?_eq_some.mp hb with ⟨hjb, heb⟩
  have hc := List.chain'_iff_get.mp h j (by omega)
  rw [List.get_eq_getElem, List.get_eq_getElem] at hc
  subst hea heb
  exact hc

/-- Claim C5 amended: a single BoundaryDrag update step keeps every segment
at least 0.01 wide, provided the list is non-overlapping (each segment ends
at or before its successor starts) and every segment is at least 0.01 wide.
Without the non-overlap hypothesis the claim fails (see the counterexample). -/
theorem drag_preserves_min_width (segs : List LabelSegment) (i : Nat) (edge : DragEdge)
    (newTime : ℚ)
    (hchain : List.Chain' (fun a b => a.stop ≤ b.start) segs)
    (hw : ∀ s ∈ segs, 1/100 ≤ s.stop - s.start) :
    ∀ s ∈ dragStep segs i edge newTime, 1/100 ≤ s.stop - s.start := by
  intro s hs
  unfold dragStep at hs
  cases hgi : segs[i]? with
  | none => rw [hgi] at hs; exact hw s hs
  | some segment =>
      simp only [hgi] at hs
      have hsegmem : segment ∈ segs := List.getElem?_mem hgi
      have hws := hw segment hsegmem
      cases edge with
      | start =>
          by_cases h0 : i = 0
          · subst h0
            simp only [if_pos rfl] at hs
            rcases List.mem_or_eq_of_mem_set hs with hs | rfl
            · exact hw s hs
            · show 1/100 ≤ segment.stop - min newTime (segment.stop - 1/100)
              have := min_le_right newTime (segment.stop - 1/100)
              linarith
          · simp only [h0, if_false] at hs
            cases hgp : segs[i - 1]? with
            | none => simp only [hgp] at hs; exact hw s hs
            | some prevSegment =>
                simp only [hgp] at hs
                have hadj : prevSegment.stop ≤ segment.start := by
                  have hidx : i - 1 + 1 = i := by omega
                  exact chain'_rel_of_getElem? hchain (i - 1) prevSegment segment hgp
                    (by rw [hidx]; exact hgi)
                have hwp := hw prevSegment (List.getElem?_mem hgp)
                have hcu : max (prevSegment.start + 1/100)
                    (min newTime (segment.stop - 1/100)) ≤ segment.stop - 1/100 :=
                  max_le (by linarith) (min_le_right _ _)
                have hcl : prevSegment.start + 1/100 ≤ max (prevSegment.start + 1/100)
                    (min newTime (segment.stop - 1/100)) := le_max_left _ _
                rcases List.mem_or_eq_of_mem_set hs with hs | rfl
                · rcases List.mem_or_eq_of_mem_set hs with hs | rfl
                  · exact hw s hs
                  · show 1/100 ≤ segment.stop - max (prevSegment.start + 1/100)
                      (min newTime (segment.stop - 1/100))
                    linarith
                · show 1/100 ≤ max (prevSegment.start + 1/100)
                      (min newTime (segment.stop - 1/100)) - prevSegment.start
                  linarith
      | stop =>
          cases hgn : segs[i + 1]? with
          | none =>
              simp only [hgn] at hs
              rcases List.mem_or_eq_of_mem_set hs with hs | rfl
              · exact hw s hs
              · show 1/100 ≤ max newTime (segment.start + 1/100) - segment.start
                have := le_max_right newTime (segment.start + 1/100)
                linarith
          | some nextSegment =>
              simp only [hgn] at hs
              have hadj : segment.stop ≤ nextSegment.start :=
                chain'_rel_of_getElem? hchain i segment nextSegment hgi hgn
              have hwn := hw nextSegment (List.getElem?_mem hgn)
              have hcl : segment.start + 1/100 ≤ min (nextSegment.stop - 1/100)
                  (max newTime (segment.start + 1/100)) :=
                le_min (by linarith) (le_max_right _ _)
              have hcu : min (nextSegment.stop - 1/100)
                  (max newTime (segment.start + 1/100)) ≤ nextSegment.stop - 1/100 :=
                min_le_left _ _
              rcases List.mem_or_eq_of_mem_set hs with hs | rfl
              · rcases List.mem_or_eq_of_mem_set hs with hs | rfl
                · exact hw s hs
                · show 1/100 ≤ min (nextSegment.stop - 1/100)
                      (max newTime (segment.start + 1/100)) - segment.start
                  linarith
              · show 1/100 ≤ nextSegment.stop - min (nextSegment.stop - 1/100)
                    (max newTime (segment.start + 1/100))
                linarith

set_option maxRecDepth 100000 in
/-- Counterexample to claim C5 as stated: both segments have width exactly
0.01, but they overlap; dragging the start of segment 1 to time 0 clamps the
boundary to 0.01 and leaves segment 1 with width 0.005, below the floor. -/
theorem drag_min_width_counterexample :
    (∀ s ∈ [(⟨0, 1/100, "a"⟩ : LabelSegment), ⟨1/200, 3/200, "b"⟩],
      1/100 ≤ s.stop - s.start) ∧
    ¬ (∀ s ∈ dragStep [(⟨0, 1/100, "a"⟩ : LabelSegment), ⟨1/200, 3/200, "b"⟩] 1
        DragEdge.start 0, 1/100 ≤ s.stop - s.start) := by
  with_unfolding_all decide

set_option maxRecDepth 100000 in
/-- Witness for the amended claim C5 at a concrete non-overlapping list. -/
theorem drag_preserves_min_width_witness :
    List.Chain' (fun a b => a.stop ≤ b.start)
      [(⟨0, 1/100, "a"⟩ : LabelSegment), ⟨2/100, 3/100, "b"⟩] ∧
    (∀ s ∈ [(⟨0, 1/100, "a"⟩ : LabelSegment), ⟨2/100, 3/100, "b"⟩],
      1/100 ≤ s.stop - s.start) ∧
    (∀ s ∈ dragStep [(⟨0, 1/100, "a"⟩ : LabelSegment), ⟨2/100, 3/100, "b"⟩] 1
        DragEdge.start 0, 1/100 ≤ s.stop - s.start) :=
  ⟨by
      refine List.chain'_cons.mpr ⟨?_, List.chain'_singleton _⟩
      show (1 : ℚ)/100 ≤ 2/100
      norm_num,
    by with_unfolding_all decide,
    drag_preserves_min_width [⟨0, 1/100, "a"⟩, ⟨2/100, 3/100, "b"⟩] 1 DragEdge.start 0
      (by
        refine List.chain'_cons.mpr ⟨?_, List.chain'_singleton _⟩
        show (1 : ℚ)/100 ≤ 2/100
        norm_num)
      (by with_unfolding_all decide)⟩

theorem enumFrom_filter_map_sublist (l : List LabelSegment) (k : Nat) (n : Nat) :
    List.Sublist (((List.enumFrom n l).filter (fun p => p.1 != k)).map (fun p => p.2)) l := by
  induction l generalizing n with
  | nil => simp
  | cons a l ih =>
      rw [show List.enumFrom n (a :: l) = (n, a) :: List.enumFrom (n + 1) l from rfl,
        List.filter_cons]
      by_cases h : n = k
      · have hb : ((n, a).1 != k) = false := by simp [h]
        simp only [hb, Bool.false_eq_true, if_false]
        exact List.Sublist.cons a (ih (n + 1))
      · have hb : ((n, a).1 != k) = true := by simp [h]
        simp only [hb, if_true, List.map_cons]
        exact List.Sublist.cons₂ a (ih (n + 1))

theorem deleteSegmentAt_sublist (l : List LabelSegment) (k : Nat) :
    List.Sublist (deleteSegmentAt l k) l :=
  enumFrom_filter_map_sublist l k 0

theorem segInv_handleAddNewSegment (st : ChartState) (startTime endTime : ℚ) (lab : String)
    (h : SegInv st.labelSegments) :
    SegInv (handleAddNewSegment st startTime endTime lab).labelSegments := by
  cases hd : st.data with
  | nil =>
      unfold handleAddNewSegment
      rw [hd]
      exact h
  | cons d0 tl =>
      rw [handleAddNewSegment_cons st startTime endTime lab d0 tl hd]
      split_ifs with h1 h2 h3
      · exact h
      · exact h
      · exact h
      · have hse : startTime < endTime := not_le.mp h2
        constructor
        · exact pairwise_sortByStart _
        · intro q hq
          rw [mem_sortByStart] at hq
          rcases List.mem_append.mp hq with hq | hq
          · exact processedSegments_width startTime endTime st.labelSegments hse h.2 q hq
          · rcases List.mem_singleton.mp hq with rfl
            exact hse

theorem segInv_deleteSegmentAt (segs : List LabelSegment) (k : Nat)
    (h : SegInv segs) : SegInv (deleteSegmentAt segs k) :=
  ⟨List.Pairwise.sublist (deleteSegmentAt_sublist segs k) h.1,
    fun s hs => h.2 s ((deleteSegmentAt_sublist segs k).subset hs)⟩

theorem segInv_handleApplyCrop (st : ChartState) (ca cb : Option ℚ)
    (h : SegInv st.labelSegments) :
    SegInv (handleApplyCrop st ca cb).labelSegments := by
  unfold handleApplyCrop
  split
  · exact h
  next r0 rtl heq =>
    dsimp only
    split_ifs with h1 h2
    · exact h
    · exact h
    · split
      · exact h
      next t0 ts heq2 =>
        constructor
        · refine List.Pairwise.filter _ (List.Pairwise.map _ ?_ h.1)
          intro p q hpq
          show max p.start (ca.getD r0.timestamp) - ca.getD r0.timestamp ≤
            max q.start (ca.getD r0.timestamp) - ca.getD r0.timestamp
          exact sub_le_sub_right (max_le_max hpq le_rfl) _
        · intro s hs
          have := List.of_mem_filter hs
          simpa using this

/-- Claim C1 amended: any sequence of Insert, Delete, and Crop commands
preserves the invariant that segments are sorted ascending by start with
strictly positive width.  A BoundaryDrag update step does not belong to this
list: it can produce a zero-width segment (see the counterexample), so the
claim as stated, with drags included, fails. -/
theorem edit_ops_preserve_invariant (st : ChartState) (ops : List EditOp)
    (h : SegInv st.labelSegments) :
    SegInv ((ops.foldl applyOp st).labelSegments) := by
  induction ops generalizing st with
  | nil => exact h
  | cons op ops ih =>
      rw [List.foldl_cons]
      refine ih _ ?_
      cases op with
      | insert s e l => exact segInv_handleAddNewSegment st s e l h
      | delete k => exact segInv_deleteSegmentAt st.labelSegments k h
      | crop a b => exact segInv_handleApplyCrop st a b h

set_option maxRecDepth 100000 in
/-- Counterexample to claim C1 as stated: a sorted list of positive-width
segments on which a single BoundaryDrag update step (dragging the start of
segment 1 toward 0) yields a zero-width segment, violating the invariant. -/
theorem invariant_drag_counterexample :
    SegInv [(⟨0, 5/1000, "a"⟩ : LabelSegment), ⟨5/1000, 1/100, "b"⟩] ∧
    ¬ SegInv (dragStep [(⟨0, 5/1000, "a"⟩ : LabelSegment), ⟨5/1000, 1/100, "b"⟩] 1
        DragEdge.start 0) := by
  with_unfolding_all decide

set_option maxRecDepth 1000000 in
/-- Witness for the amended claim C1 on a concrete sequence of an accepted
Insert, a Delete, and an accepted Crop. -/
theorem edit_ops_preserve_invariant_witness :
    SegInv stA.labelSegments ∧
    SegInv (([EditOp.insert 1 2 "X", EditOp.delete 0,
        EditOp.crop (some 0) (some 1)].foldl applyOp stA).labelSegments) :=
  ⟨by with_unfolding_all decide,
    edit_ops_preserve_invariant stA
      [EditOp.insert 1 2 "X", EditOp.delete 0, EditOp.crop (some 0) (some 1)]
      (by with_unfolding_all decide)⟩

theorem decodeRow_timestamp (samplingRate : ℚ) (offset : Nat) (line : String)
    (h : rowAccepted line) :
    ∃ dp, decodeRow samplingRate offset line = some dp ∧
      dp.timestamp = (offset : ℚ) * (1 / samplingRate) := by
  unfold decodeRow
  dsimp only
  rw [if_neg h.1, if_neg (not_lt.mpr h.2)]
  exact ⟨_, rfl, rfl⟩

theorem decode_enumFrom_timestamps (samplingRate : ℚ) (L : List String) (n : Nat)
    (hacc : ∀ line ∈ L, rowAccepted line) (k : Nat)
    (hk : k < ((List.enumFrom n L).filterMap
        (fun p => decodeRow samplingRate p.1 p.2)).length) :
    (((List.enumFrom n L).filterMap (fun p => decodeRow samplingRate p.1 p.2))[k]?).map
        (fun dp => dp.timestamp) =
      some (((n + k : Nat) : ℚ) * (1 / samplingRate)) := by
  induction L generalizing n k with
  | nil => simp at hk
  | cons a L ih =>
      obtain ⟨dp, hdp, hts⟩ :=
        decodeRow_timestamp samplingRate n a (hacc a (List.mem_cons_self a L))
      rw [show List.enumFrom n (a :: L) = (n, a) :: List.enumFrom (n + 1) L from rfl] at hk ⊢
      rw [List.filterMap_cons] at hk ⊢
      simp only [hdp] at hk ⊢
      cases k with
      | zero => simp [hts]
      | succ k =>
          rw [List.getElem?_cons_succ]
          have hk2 : k < ((List.enumFrom (n + 1) L).filterMap
              (fun p => decodeRow samplingRate p.1 p.2)).length := by
            simpa using Nat.lt_of_succ_lt_succ hk
          rw [ih (n + 1) (fun line hl => hacc line (List.mem_cons_of_mem a hl)) k hk2]
          have : n + 1 + k = n + (k + 1) := by omega
          rw [this]

/-- Claim C3 amended: each decoded row's synthesized timestamp is its line
offset from the first data row times the sample interval; this equals
i × (1/samplingRate) for the i-th accepted row exactly when every post-header
line is accepted.  With blank or malformed lines interleaved, the claim as
stated fails (see the counterexample), because the decode loop multiplies by
the raw line index rather than the count of accepted rows. -/
theorem decode_timestamps_amended (lines : List String) (dataStartIndex : Nat)
    (samplingRate : ℚ)
    (hacc : ∀ line ∈ lines.drop dataStartIndex, rowAccepted line) (k : Nat)
    (hk : k < (decodeSignalRows lines dataStartIndex samplingRate).length) :
    ((decodeSignalRows lines dataStartIndex samplingRate)[k]?).map
        (fun dp => dp.timestamp) =
      some ((k : ℚ) * (1 / samplingRate)) := by
  have h := decode_enumFrom_timestamps samplingRate (lines.drop dataStartIndex) 0 hacc k
    (by simpa [decodeSignalRows, List.enum] using hk)
  simpa [decodeSignalRows, List.enum] using h

set_option maxRecDepth 1000000 in
/-- Counterexample to claim C3 as stated: with a blank line interleaved
before the first data row, the 0th accepted row is timestamped one sample
interval in, not 0 × (1/samplingRate) = 0. -/
theorem decode_timestamps_counterexample :
    (decodeSignalRows ["", "0 0 0 0 0 1 2 3 4 5 6"] 0 1000).map (fun dp => dp.timestamp) ≠
      [(0 : ℚ) * (1 / 1000)] := by
  with_unfolding_all decide

set_option maxRecDepth 1000000 in
/-- Witness for the amended claim C3 on a one-row file with no skipped lines. -/
theorem decode_timestamps_amended_witness :
    (∀ line ∈ (["0 0 0 0 0 1 2 3 4 5 6"] : List String).drop 0, rowAccepted line) ∧
    0 < (decodeSignalRows ["0 0 0 0 0 1 2 3 4 5 6"] 0 1000).length ∧
    ((decodeSignalRows ["0 0 0 0 0 1 2 3 4 5 6"] 0 1000)[0]?).map
        (fun dp => dp.timestamp) = some ((0 : ℚ) * (1 / 1000)) :=
  ⟨by with_unfolding_all decide, by with_unfolding_all decide,
    decode_timestamps_amended ["0 0 0 0 0 1 2 3 4 5 6"] 0 1000
      (by with_unfolding_all decide) 0 (by with_unfolding_all decide)⟩

set_option maxRecDepth 1000000 in
/-- Counterexample to claim C2 (the spec's concrete scenario A): the
three-row 1000 Hz signal file yields relative timestamps 0, 0.001, 0.002,
and on the label file with rows at T, T+1ms, T+2ms labelled up, up, down the
Label Segment Builder does not return the claimed pair of segments: the
single-row down run is expanded past the signal range and then dropped by
clipping, and the up run ends at 0.001. -/
theorem label_builder_scenario_a_counterexample :
    (decodeSignalRows sigLinesA (findDataStart sigLinesA) 1000).map
        (fun p => p.timestamp) = [0, 1/1000, 2/1000] ∧
    (parseKeypressLabelSegmentsWithMetadata (fun _ => none) labelFileA (some 1000000)
        (0, 2/1000)).1 ≠
      [⟨0, 2/1000, "up"⟩, ⟨2/1000, 3/1000, "down"⟩] := by
  with_unfolding_all decide

set_option maxRecDepth 1000000 in
/-- Claim C2 amended: on the spec's concrete scenario A the Label Segment
Builder returns exactly one segment, the up run spanning 0 to 0.001; the
down run is dropped because its zero-width expansion is clipped back to
zero width at the end of the signal range. -/
theorem label_builder_scenario_a_amended :
    (parseKeypressLabelSegmentsWithMetadata (fun _ => none) labelFileA (some 1000000)
        (0, 2/1000)).1 = [⟨0, 1/1000, "up"⟩] := by
  with_unfolding_all decide

/-- Claim C6 amended: for a crop accepted by validation, every retained
sample's shifted timestamp lies in [0, cropEnd − cropStart] (so the
re-derived minimum is nonnegative, but it equals first retained timestamp
minus cropStart, which is 0 only when a sample sits exactly at cropStart —
see the counterexample), every retained segment has positive width and lies
within [0, cropEnd − cropStart], and both non-null absolute starts advance by
exactly cropStart × 1000 milliseconds. -/
theorem crop_amended (st : ChartState) (a b : ℚ) (r0 : DataPoint) (rtl : List DataPoint)
    (hraw : st.rawData = r0 :: rtl)
    (hab : ¬ a ≥ b)
    (hrange : ¬ (a < r0.timestamp ∨ b > ((r0 :: rtl).getLastD r0).timestamp))
    (hne : (r0 :: rtl).filter (fun point =>
        decide (a ≤ point.timestamp ∧ point.timestamp ≤ b)) ≠ []) :
    (∀ p ∈ (handleApplyCrop st (some a) (some b)).rawData,
        0 ≤ p.timestamp ∧ p.timestamp ≤ b - a) ∧
    (∀ s ∈ (handleApplyCrop st (some a) (some b)).labelSegments,
        0 ≤ s.start ∧ s.start < s.stop ∧ s.stop ≤ b - a) ∧
    (handleApplyCrop st (some a) (some b)).signalStartTimestampMs =
      st.signalStartTimestampMs.map (fun prev => prev + a * 1000) ∧
    (handleApplyCrop st (some a) (some b)).keypressStartTimestampMs =
      st.keypressStartTimestampMs.map (fun prev => prev + a * 1000) := by
  obtain ⟨raw, dat, segs, yr, sS, kS, rate, err⟩ := st
  simp only at hraw
  subst hraw
  have hcrop : handleApplyCrop ⟨r0 :: rtl, dat, segs, yr, sS, kS, rate, err⟩
      (some a) (some b) =
      (let trimmedRawData := (r0 :: rtl).filter (fun point =>
          decide (a ≤ point.timestamp ∧ point.timestamp ≤ b))
       match trimmedRawData with
       | [] => { rawData := r0 :: rtl, data := dat, labelSegments := segs, yRange := yr
                 signalStartTimestampMs := sS, keypressStartTimestampMs := kS
                 keypressSamplingRate := rate, error := some UiError.cropEmpty }
       | t0 :: _ =>
           let normalizedRawData :=
             trimmedRawData.map (fun point => { point with timestamp := point.timestamp - a })
           let sampleStep := max 1 (normalizedRawData.length / 10000)
           let normalizedSampledData :=
             (normalizedRawData.enum.filter (fun p => p.1 % sampleStep == 0)).map
               (fun p => p.2)
           let croppedSegments :=
             (segs.map (fun segment =>
               { segment with start := max segment.start a - a
                              stop := min segment.stop b - a })).filter
               (fun segment => segment.start < segment.stop)
           let minA4 := (normalizedRawData.map (fun p => p.A4)).foldl min t0.A4
           let maxA4 := (normalizedRawData.map (fun p => p.A4)).foldl max t0.A4
           { rawData := normalizedRawData, data := normalizedSampledData
             labelSegments := croppedSegments, yRange := some (minA4, maxA4)
             signalStartTimestampMs := sS.map (fun prev => prev + a * 1000)
             keypressStartTimestampMs := kS.map (fun prev => prev + a * 1000)
             keypressSamplingRate := rate, error := none }) := by
    simp only [handleApplyCrop, Option.getD_some, hab, if_false]
    rw [if_neg hrange]
  rw [hcrop]
  clear hcrop
  cases hsplit : (r0 :: rtl).filter (fun point =>
      decide (a ≤ point.timestamp ∧ point.timestamp ≤ b)) with
  | nil => exact absurd hsplit hne
  | cons t0 ts =>
    refine ⟨?_, ?_, rfl, rfl⟩
    · intro p hp
      rcases List.mem_map.mp hp with ⟨q, hq, rfl⟩
      rw [← hsplit] at hq
      have hqf := List.mem_filter.mp hq
      have hbounds := of_decide_eq_true hqf.2
      constructor
      · show 0 ≤ q.timestamp - a
        linarith [hbounds.1]
      · show q.timestamp - a ≤ b - a
        linarith [hbounds.2]
    · intro s hs
      have hsf := List.mem_filter.mp hs
      have hw : s.start < s.stop := of_decide_eq_true hsf.2
      rcases List.mem_map.mp hsf.1 with ⟨q, hq, rfl⟩
      refine ⟨?_, hw, ?_⟩
      · show 0 ≤ max q.start a - a
        have := le_max_right q.start a
        linarith
      · show min q.stop b - a ≤ b - a
        have := min_le_right q.stop b
        linarith

set_option maxRecDepth 1000000 in
/-- Counterexample to claim C6 as stated: cropping [0.5, 2] of samples at 0,
1, 2 seconds passes validation (the error field is cleared), yet the
re-derived minimum timestamp of the cropped samples is 0.5, not 0, because
no sample sits exactly at the crop start. -/
theorem crop_counterexample :
    (handleApplyCrop stA (some (1/2)) (some 2)).error = none ∧
    ((handleApplyCrop stA (some (1/2)) (some 2)).rawData.head?).map
        (fun p => p.timestamp) ≠ some 0 := by
  with_unfolding_all decide

set_option maxRecDepth 1000000 in
/-- Witness for the amended claim C6 at a concrete accepted crop. -/
theorem crop_amended_witness :
    stA.rawData = ptAt 0 :: [ptAt 1, ptAt 2] ∧ ¬ (0 : ℚ) ≥ 3/2 ∧
      ¬ ((0 : ℚ) < (ptAt 0).timestamp ∨
        (3/2 : ℚ) > ((ptAt 0 :: [ptAt 1, ptAt 2]).getLastD (ptAt 0)).timestamp) ∧
      (ptAt 0 :: [ptAt 1, ptAt 2]).filter (fun point =>
        decide ((0 : ℚ) ≤ point.timestamp ∧ point.timestamp ≤ 3/2)) ≠ [] ∧
      (∀ s ∈ (handleApplyCrop stA (some 0) (some (3/2))).labelSegments,
        0 ≤ s.start ∧ s.start < s.stop ∧ s.stop ≤ 3/2 - 0) ∧
      (handleApplyCrop stA (some 0) (some (3/2))).signalStartTimestampMs =
        stA.signalStartTimestampMs.map (fun prev => prev + 0 * 1000) :=
  ⟨rfl, by with_unfolding_all decide, by with_unfolding_all decide,
    by with_unfolding_all decide,
    (crop_amended stA 0 (3/2) (ptAt 0) [ptAt 1, ptAt 2] rfl
      (by with_unfolding_all decide) (by with_unfolding_all decide)
      (by with_unfolding_all decide)).2.1,
    (crop_amended stA 0 (3/2) (ptAt 0) [ptAt 1, ptAt 2] rfl
      (by with_unfolding_all decide) (by with_unfolding_all decide)
      (by with_unfolding_all decide)).2.2.1⟩

theorem exportLoop_map_proj (signalStartMs keypressStartMs sampleIntervalMs : ℚ) :
    ∀ (segments : List LabelSegment) (n : Nat),
      (exportLoop signalStartMs keypressStartMs sampleIntervalMs segments n).map exportProj =
        exportRowsSpec signalStartMs keypressStartMs sampleIntervalMs segments := by
  intro segments
  induction segments with
  | nil => intro n; rfl
  | cons segment rest ih =>
      intro n
      have hdur : signalStartMs + segment.stop * 1000 -
          (signalStartMs + segment.start * 1000) = (segment.stop - segment.start) * 1000 := by
        ring
      simp only [exportLoop, exportRowsSpec, rowsForSegment, List.map_append, List.map_map,
        ih, hdur]
      rfl

/-- Claim C9: a label export that passes its precondition checks synthesizes,
for each exported (clamped) segment, exactly max(1, ceil(durationMs /
sampleIntervalMs)) rows with durationMs the segment width in milliseconds
and sampleIntervalMs = 1000 / keypressSamplingRate; row i is timestamped at
the segment's absolute start (anchored on the signal stream's absolute
start: signalStart + segment.start × 1000) plus i sample intervals, and its
elapsed value is its timestamp minus the label stream's absolute start —
stated as: the projected export rows equal the spec-formula rows. -/
theorem export_rows_match_spec (st : ChartState) (sS kS : ℚ) (rows : List ExportRow)
    (hs : st.signalStartTimestampMs = some sS)
    (hk : st.keypressStartTimestampMs = some kS)
    (h : handleExportLabels st = some rows) :
    rows.map exportProj =
      exportRowsSpec sS kS (1000 / st.keypressSamplingRate) (segmentsForExportOf st) := by
  unfold handleExportLabels at h
  rw [hs, hk] at h
  by_cases h1 : st.rawData = []
  · rw [if_pos h1] at h
    exact absurd h (by simp)
  rw [if_neg h1] at h
  by_cases h2 : st.labelSegments = []
  · rw [if_pos h2] at h
    exact absurd h (by simp)
  rw [if_neg h2] at h
  have hfl : (if segmentsForExportOf st = [] then (none : Option (List ExportRow))
      else some (exportLoop sS kS (1000 / st.keypressSamplingRate)
        (segmentsForExportOf st) 0)) = some rows := h
  by_cases h3 : segmentsForExportOf st = []
  · rw [if_pos h3] at hfl
    exact absurd hfl (by simp)
  · rw [if_neg h3] at hfl
    injection hfl with h4
    rw [← h4]
    exact exportLoop_map_proj sS kS (1000 / st.keypressSamplingRate)
      (segmentsForExportOf st) 0

set_option maxRecDepth 1000000 in
/-- Witness for claim C9 at a concrete state whose export succeeds with two
rows. -/
theorem export_rows_match_spec_witness :
    stB.signalStartTimestampMs = some 1000 ∧
    stB.keypressStartTimestampMs = some 500 ∧
    handleExportLabels stB = some [⟨0, 1000, 500, "up"⟩, ⟨1, 1001, 501, "up"⟩] ∧
    ([(⟨0, 1000, 500, "up"⟩ : ExportRow), ⟨1, 1001, 501, "up"⟩].map exportProj =
      exportRowsSpec 1000 500 (1000 / stB.keypressSamplingRate) (segmentsForExportOf stB)) :=
  ⟨rfl, rfl, by with_unfolding_all decide,
    export_rows_match_spec stB 1000 500 [⟨0, 1000, 500, "up"⟩, ⟨1, 1001, 501, "up"⟩]
      rfl rfl (by with_unfolding_all decide)⟩
